import Mathlib

/-!
Verification development for the trantor TCP connection core
(`trantor/net/inner/TcpConnectionImpl.cc` and
`trantor/net/inner/FileBufferNodeWin.cc`).

The connection state machine is embedded shallowly: connection fields become a
Lean structure, socket I/O results are supplied by an oracle (one `WResp` per
nonblocking write call, one `ReadRes` per read event), and bytes are `Nat`s in
lists.  In the build present in these sources the TLS factory
(`newTLSProvider`, guarded by `!(USE_OPENSSL || USE_BOTAN)`) throws, so no
connection ever carries a TLS shim; the embedding therefore fixes
`tlsProviderPtr_ == nullptr` throughout the connection machine.  The
shutdown path is additionally embedded once more in full generality (with an
abstract shim backlog) for the shutdown-deferral property.

The `MemBufferNode`, `StreamBufferNode` and `AsyncStreamBufferNode`
implementations are not among the given sources (only `FileBufferNodeWin.cc`
is); their uniform `getData`/`retrieve`/`append`/`done`/`remainingBytes`
behaviour is modelled from the spec (section 4.5 and the variant table) where
so marked.
-/

namespace TrantorSpec

/-- Connection status, `TcpConnection::ConnStatus`. -/
inductive ConnStatus
  | Connecting
  | Connected
  | Disconnecting
  | Disconnected
deriving Repr, DecidableEq

/-- Position of a status along the lifecycle order
`Connecting < Connected < Disconnecting < Disconnected`. -/
def ConnStatus.rank : ConnStatus → Nat
  | .Connecting => 0
  | .Connected => 1
  | .Disconnecting => 2
  | .Disconnected => 3

/-- One egress `BufferNode`, as a tagged variant.

* `mem buf` — `MemBufferNode`: an in-memory byte buffer.
* `file avail isDone fileBytesToSend msgBuf content` — `FileBufferNode`
  (from `FileBufferNodeWin.cc`): `avail` is `sendHandle_ != INVALID_HANDLE_VALUE`,
  `isDone` is `isDone_`, `fileBytesToSend` is `fileBytesToSend_`, `msgBuf` is the
  staging `msgBuffer_`, and `content` is the not-yet-read tail of the file that
  `ReadFile` will deliver.
* `stream isDone buf pending` — `StreamBufferNode`: `pending` is the sequence of
  chunks the caller's producer callback will deliver (an empty chunk or an
  exhausted list makes the producer return 0, i.e. end of stream).
* `async avail buf` — `AsyncStreamBufferNode`: producer-pushed buffer plus the
  liveness flag that `done()` clears. -/
inductive BufferNode
  | mem (buf : List Nat)
  | file (avail : Bool) (isDone : Bool) (fileBytesToSend : Nat)
      (msgBuf : List Nat) (content : List Nat)
  | stream (isDone : Bool) (buf : List Nat) (pending : List (List Nat))
  | async (avail : Bool) (buf : List Nat)
deriving Repr, DecidableEq

namespace BufferNode

/-- `isFile()` capability predicate. -/
def isFile : BufferNode → Bool
  | .file _ _ _ _ _ => true
  | _ => false

/-- `isStream()` capability predicate. -/
def isStream : BufferNode → Bool
  | .stream _ _ _ => true
  | _ => false

/-- `isAsync()` capability predicate. -/
def isAsync : BufferNode → Bool
  | .async _ _ => true
  | _ => false

/-- Whether this node is a `MemBufferNode` (model-level helper). -/
def isMem : BufferNode → Bool
  | .mem _ => true
  | _ => false

/-- `available()`: false only for a file node whose handle failed to open
(`FileBufferNodeWin.cc`) and for an async node whose producer has finished.
Modelled from the spec for the variants whose sources are not given. -/
def available : BufferNode → Bool
  | .mem _ => true
  | .file a _ _ _ _ => a
  | .stream _ _ _ => true
  | .async a _ => a

/-- `remainingBytes()`.  For the file node this is
`if (isDone_) return 0; return fileBytesToSend_;` from `FileBufferNodeWin.cc`.
Modelled from the spec for memory (buffer length), pull-stream (unknown until
the producer returns 0, hence positive while not done) and async-stream
(buffered length) nodes. -/
def remainingBytes : BufferNode → Nat
  | .mem buf => buf.length
  | .file _ d fb _ _ => if d then 0 else fb
  | .stream d buf _ => if d then buf.length else buf.length + 1
  | .async _ buf => buf.length

/-- `getData(&data, &len)`: yields the node, possibly refilled, and the next
readable window.  The file case is `FileBufferNode::getData` from
`FileBufferNodeWin.cc`: when the staging buffer is empty and file bytes remain
and the handle is valid, `ReadFile` stages up to `kMaxSendFileBufferSize`
(16384) bytes.  The other cases are modelled from the spec: memory and async
nodes yield their buffered bytes; a pull-stream node invokes the producer into
its internal buffer when that buffer is empty. -/
def getData : BufferNode → BufferNode × List Nat
  | .mem buf => (.mem buf, buf)
  | .file a d fb mb content =>
      if mb.length = 0 ∧ 0 < fb ∧ a = true then
        let staged := content.take (min 16384 fb)
        (.file a d fb staged (content.drop staged.length), staged)
      else (.file a d fb mb content, mb)
  | .stream d buf pending =>
      if buf.length = 0 ∧ d = false then
        match pending with
        | [] => (.stream d [] [], [])
        | c :: rest => (.stream d c rest, c)
      else (.stream d buf pending, buf)
  | .async a buf => (.async a buf, buf)

/-- `retrieve(len)`: consume `len` bytes from the front of the current window.
The file case additionally decrements `fileBytesToSend_`
(`FileBufferNodeWin.cc`); the rest is modelled from the spec. -/
def retrieve (n : BufferNode) (len : Nat) : BufferNode :=
  match n with
  | .mem buf => .mem (buf.drop len)
  | .file a d fb mb content => .file a d (fb - len) (mb.drop len) content
  | .stream d buf pending => .stream d (buf.drop len) pending
  | .async a buf => .async a (buf.drop len)

/-- `append(data, len)`: modelled from the spec, meaningful only for memory and
async-stream nodes; the connection code never appends to file or pull-stream
nodes (it pushes a fresh memory node instead), so those cases are inert. -/
def append (n : BufferNode) (data : List Nat) : BufferNode :=
  match n with
  | .mem buf => .mem (buf ++ data)
  | .async a buf => .async a (buf ++ data)
  | .file a d fb mb content => .file a d fb mb content
  | .stream d buf pending => .stream d buf pending

/-- `done()`: marks end of data.  Modelled from the spec: a pull-stream or file
node is marked done when its source yields a zero-length window; an
async-stream node's producer flag is cleared by its explicit `done()`. -/
def done : BufferNode → BufferNode
  | .mem buf => .mem buf
  | .file a _ fb mb content => .file a true fb mb content
  | .stream _ buf pending => .stream true buf pending
  | .async _ buf => .async false buf

end BufferNode

/-- `FileBufferNode::FileBufferNode(fileName, offset, length)` from
`FileBufferNodeWin.cc`, for a file whose contents are `content` (so the
`GetFileSizeEx` size is `content.length`), assuming `CreateFileW` and
`GetFileSizeEx` succeed.  `offset` is the C++ `long long`; `length` is the C++
`size_t`, so the source's bounds check `length + offset > fileSize.QuadPart`
is evaluated in unsigned 64-bit arithmetic: `length + offset` reduces modulo
`2^64` and the signed file size is compared as unsigned.
`SetFilePointerEx(..., FILE_BEGIN)` is modelled as failing exactly for a
negative target offset, per its documented contract.  A failed node keeps
`isDone_ = true` and an invalid handle, so it is unavailable and reports zero
remaining bytes. -/
def newFileBufferNode (content : List Nat) (offset : Int) (length : Nat) :
    BufferNode :=
  let S : Int := content.length
  if length = 0 then
    if S ≤ offset then
      .file false true 0 [] []
    else if offset < 0 then
      -- fileBytesToSend_ was already assigned; the seek then fails.
      .file false true (content.length - offset.toNat) [] []
    else
      .file true false (content.length - offset.toNat) []
        (content.drop offset.toNat)
  else
    if S < ((length : Int) + offset) % (2 ^ 64 : Int) then
      .file false true 0 [] []
    else if offset < 0 then
      .file false true length [] []
    else
      .file true false length [] (content.drop offset.toNat)

/-- Result of one nonblocking socket write (`writeRaw`): either the kernel
accepted `k` bytes of the offered window, or the call failed with
would-block (`EWOULDBLOCK`/`WSAEWOULDBLOCK`), with a broken-pipe or
connection-reset error (`EPIPE`/`ECONNRESET` and their Winsock equivalents),
or with any other error. -/
inductive WResp
  | ok (k : Nat)
  | wouldBlock
  | errReset
  | errOther
deriving Repr, DecidableEq

/-- `true` for responses that are not hard write errors. -/
def WResp.isOk : WResp → Bool
  | .ok _ => true
  | .wouldBlock => true
  | .errReset => false
  | .errOther => false

/-- The per-connection state of `TcpConnectionImpl`, restricted to the fields
the given sources mutate.  `writing`/`reading` are the channel interest flags
(`ioChannelPtr_->isWriting()` etc.), `queue` is `writeBufferList_`,
`wire` accumulates every byte handed to the kernel by `writeRaw` (the peer's
view of the stream), `halfClosed` records `socketPtr_->closeWrite()`, and the
callback slots are modelled as presence flags plus invocation counters.
No TLS shim exists in this build (`newTLSProvider` throws), so
`writeInLoop` coincides with `writeRaw`. -/
structure ConnState where
  status : ConnStatus := .Connecting
  reading : Bool := false
  writing : Bool := false
  queue : List BufferNode := []
  closeOnEmpty : Bool := false
  halfClosed : Bool := false
  channelRemoved : Bool := false
  wire : List Nat := []
  bytesSent : Nat := 0
  readBuffer : List Nat := []
  bytesReceived : Nat := 0
  hasRecvCb : Bool := false
  recvCbCount : Nat := 0
  hasConnCb : Bool := false
  connCbCount : Nat := 0
  hasCloseCb : Bool := false
  closeCbCount : Nat := 0
  hasHwCb : Bool := false
  hwLen : Nat := 0
  hwCbCount : Nat := 0
deriving Repr, DecidableEq

/-- Effect of a successful `writeRaw` transfer: the accepted bytes appear on
the wire and `bytesSent_` grows accordingly. -/
def pushWire (s : ConnState) (bytes : List Nat) : ConnState :=
  { s with wire := s.wire ++ bytes, bytesSent := s.bytesSent + bytes.length }

/-- Whether `writeBufferList_.back()` is a file or pull-stream node. -/
def tailIsFileOrStream (q : List BufferNode) : Bool :=
  match q.getLast? with
  | some b => b.isFile || b.isStream
  | none => false

/-- Steps 4–5 of `sendInLoop` (lines 372–399): buffer the bytes that remain
after the direct-write attempt.  If the queue is empty or its tail is a file
or pull-stream node, push a fresh memory node; then append the leftover bytes
to the tail node, enable write interest, and fire the high-water callback if
the tail now exceeds the threshold.  (The second high-water check reads the
TLS backlog and is dead in this TLS-less build.) -/
def sendBuffering (s : ConnState) (remain : List Nat) : ConnState :=
  if remain ≠ [] ∧ s.status = ConnStatus.Connected then
    let q1 :=
      if s.queue = [] ∨ tailIsFileOrStream s.queue then
        s.queue ++ [BufferNode.mem []]
      else s.queue
    let back := (q1.getLast?.getD (BufferNode.mem [])).append remain
    let s1 := { s with queue := q1.dropLast ++ [back], writing := true }
    if s1.hasHwCb ∧ s1.hwLen < back.remainingBytes then
      { s1 with hwCbCount := s1.hwCbCount + 1 }
    else s1
  else s

/-- `TcpConnectionImpl::sendInLoop(buffer, length)` (lines 328–399), with the
kernel's answer to the (at most one) direct write supplied as `r`.  Not
connected: warn and drop.  Queue empty and write interest off: attempt a
direct write; would-block counts as zero bytes sent; broken-pipe/reset and
other errors return without buffering.  Whatever remains is buffered by
`sendBuffering`. -/
def sendInLoop (s : ConnState) (p : List Nat) (r : WResp) : ConnState :=
  if s.status ≠ ConnStatus.Connected then s
  else if s.writing = false ∧ s.queue = [] then
    match r with
    | .ok k => sendBuffering (pushWire s (p.take k)) (p.drop k)
    | .wouldBlock => sendBuffering s p
    | .errReset => s
    | .errOther => s
  else sendBuffering s p

/-- The `while (nodePtr->remainingBytes() > 0)` loop of
`TcpConnectionImpl::sendNodeInLoop` (lines 662–721), in the build without the
Linux `sendfile` fast path.  Each iteration asks the node for its next window
(`getData`); a zero-length window marks the node done; otherwise one oracle
response is consumed for the `writeInLoop` call.  Returns the updated node,
the bytes that reached the wire, the unconsumed oracle responses, and whether
the function ends by (re-)enabling write interest (`true` everywhere except
the broken-pipe/reset and unexpected-error returns).  An exhausted oracle
stops the loop like would-block. -/
def sendNodeInLoop : BufferNode → List WResp → BufferNode × List Nat × List WResp × Bool
  | n, [] =>
      if n.remainingBytes = 0 then (n, [], [], true)
      else
        let gd := n.getData
        if gd.2.length = 0 then (gd.1.done, [], [], true)
        else (gd.1, [], [], true)
  | n, r :: rs =>
      if n.remainingBytes = 0 then (n, [], r :: rs, true)
      else
        let gd := n.getData
        if gd.2.length = 0 then (gd.1.done, [], r :: rs, true)
        else
          match r with
          | .ok k =>
              let n2 := gd.1.retrieve k
              if k < gd.2.length then (n2, gd.2.take k, rs, true)
              else
                let res := sendNodeInLoop n2 rs
                (res.1, gd.2.take k ++ res.2.1, res.2.2.1, res.2.2.2)
          | .wouldBlock => (gd.1, [], rs, true)
          | .errReset => (gd.1, [], rs, false)
          | .errOther => (gd.1, [], rs, false)

/-- How the `while (!writeBufferList_.empty())` loop of `writeCallback`
ends: the queue drained completely, the head is a live async node awaiting
its producer, or the head still holds bytes after `sendNodeInLoop`. -/
inductive DrainOut
  | emptied
  | awaitProducer
  | stopped
deriving Repr, DecidableEq

/-- The drain loop of `TcpConnectionImpl::writeCallback` (lines 171–195):
pop finished head nodes; stop on a live, drained async head; otherwise call
`sendNodeInLoop` on the head and stop if it still holds bytes.  Returns the
bytes written, the remaining queue, and how the loop ended. -/
def drainLoop : List BufferNode → List WResp → List Nat × List BufferNode × DrainOut
  | [], _ => ([], [], .emptied)
  | n :: rest, rs =>
      if n.remainingBytes = 0 then
        if n.isAsync && n.available then ([], n :: rest, .awaitProducer)
        else drainLoop rest rs
      else
        let res := sendNodeInLoop n rs
        if 0 < res.1.remainingBytes then (res.2.1, res.1 :: rest, .stopped)
        else if res.1.isAsync && res.1.available then
          (res.2.1, res.1 :: rest, .awaitProducer)
        else
          let res2 := drainLoop rest res.2.2.1
          (res.2.1 ++ res2.1, res2.2.1, res2.2.2)

/-- The `shutdown()` lambda body (lines 281–309) in the TLS-less build:
if Connected with a nonempty egress queue, defer by setting `closeOnEmpty`;
otherwise transition to Disconnecting and, when write interest is off,
half-close the socket. -/
def shutdownInLoop (s : ConnState) : ConnState :=
  if s.status = ConnStatus.Connected then
    if s.queue ≠ [] then { s with closeOnEmpty := true }
    else
      let s1 := { s with status := ConnStatus.Disconnecting }
      if s1.writing = false then { s1 with halfClosed := true } else s1
  else s

/-- `TcpConnectionImpl::writeCallback` (lines 157–209) in the TLS-less build:
only acts when write interest is on; drains the queue front to back; on a
live async head or a partial node it returns (disabling write interest in the
former case); when the queue empties it disables write interest and, if
`closeOnEmpty_` is set (the TLS-backlog conjunct is vacuous here), runs the
shutdown body. -/
def writeCallback (s : ConnState) (rs : List WResp) : ConnState :=
  if s.writing = false then s
  else
    let res := drainLoop s.queue rs
    let s1 := pushWire { s with queue := res.2.1 } res.1
    match res.2.2 with
    | .awaitProducer => { s1 with writing := false }
    | .stopped => s1
    | .emptied =>
        let s2 := { s1 with writing := false }
        if s2.closeOnEmpty then shutdownInLoop s2 else s2

/-- `TcpConnectionImpl::handleClose` (lines 226–241): set Disconnected,
disable all channel interest, and invoke the connection and close callbacks
(each guarded by a null check) in that order. -/
def handleClose (s : ConnState) : ConnState :=
  let s1 := { s with status := ConnStatus.Disconnected,
                     reading := false, writing := false }
  let s2 :=
    if s1.hasConnCb then { s1 with connCbCount := s1.connCbCount + 1 } else s1
  if s2.hasCloseCb then { s2 with closeCbCount := s2.closeCbCount + 1 } else s2

/-- The `forceClose()` lambda body (lines 315–325): only when Connected or
Disconnecting, set Disconnecting and run `handleClose` (the TLS close is
vacuous in this build). -/
def forceCloseInLoop (s : ConnState) : ConnState :=
  if s.status = ConnStatus.Connected ∨ s.status = ConnStatus.Disconnecting then
    handleClose { s with status := ConnStatus.Disconnecting }
  else s

/-- The `connectEstablished()` lambda body (lines 213–224): asserts the status
is Connecting (beyond the assert, i.e. on a call the accept/connect path never
makes, modelled as a no-op), ties the channel, enables reading, transitions to
Connected and fires the connection callback (no TLS handshake in this
build). -/
def connectEstablished (s : ConnState) : ConnState :=
  if s.status = ConnStatus.Connecting then
    let s1 := { s with reading := true, status := ConnStatus.Connected }
    if s1.hasConnCb then { s1 with connCbCount := s1.connCbCount + 1 } else s1
  else s

/-- `TcpConnectionImpl::connectDestroyed` (lines 266–277): if still Connected,
demote to Disconnected, disable channel interest and fire the connection
callback (unconditionally in the source); then remove the channel. -/
def connectDestroyed (s : ConnState) : ConnState :=
  let s1 :=
    if s.status = ConnStatus.Connected then
      { s with status := ConnStatus.Disconnected,
               reading := false, writing := false,
               connCbCount := s.connCbCount + 1 }
    else s
  { s1 with channelRemoved := true }

/-- Result of the one nonblocking read of a readable event
(`readBuffer_.readFd`): `ok bytes` is a nonnegative return (`bytes = []` is
the peer-closed 0 return), the others are the negative returns classified by
`errno` as in the non-Windows branches of `readCallback`
(`EPIPE`/`ECONNRESET`; `EAGAIN`; `ECONNABORTED` reaching the final branch;
anything else). -/
inductive ReadRes
  | ok (bytes : List Nat)
  | errPipeOrReset
  | errWouldBlock
  | errAborted
  | errOther
deriving Repr, DecidableEq

/-- `TcpConnectionImpl::readCallback` (lines 81–139), POSIX branches, in the
TLS-less build: 0 bytes → `handleClose`; `EPIPE`/`ECONNRESET` → silent
return; `EAGAIN` → return; any other error (including `ECONNABORTED`) → log
and `handleClose`; positive → count the bytes, grow the ingress buffer and
invoke the message callback if set (`extendLife` touches only the timing
wheel and is not modelled). -/
def readCallback (s : ConnState) (r : ReadRes) : ConnState :=
  match r with
  | .ok bytes =>
      if bytes.length = 0 then handleClose s
      else
        let s1 := { s with bytesReceived := s.bytesReceived + bytes.length,
                           readBuffer := s.readBuffer ++ bytes }
        if s1.hasRecvCb then { s1 with recvCbCount := s1.recvCbCount + 1 }
        else s1
  | .errPipeOrReset => s
  | .errWouldBlock => s
  | .errAborted => handleClose s
  | .errOther => handleClose s

/-- `TcpConnectionImpl::sendFile` (lines 540–582, the overload that builds the
node, plus the in-loop branch of `sendFile(BufferNodePtr&&)`): construct the
file node; if it is unavailable, log and return without touching the queue or
the socket; otherwise push it and, when it became the only queued node, drive
one round of `sendNodeInLoop` on it. -/
def sendFileOp (s : ConnState) (content : List Nat) (offset : Int)
    (length : Nat) (rs : List WResp) : ConnState :=
  let node := newFileBufferNode content offset length
  if node.available = false then s
  else
    let q := s.queue ++ [node]
    if q.length = 1 then
      let res := sendNodeInLoop node rs
      let s1 := pushWire { s with queue := [res.1] } res.2.1
      { s1 with writing := s1.writing || res.2.2.2 }
    else { s with queue := q }

/-- `TcpConnectionImpl::sendStream` (lines 584–608), in-loop branch: push a
fresh pull-stream node whose producer will deliver `chunks`, and when it is
the only queued node, drive one round of `sendNodeInLoop`. -/
def sendStreamOp (s : ConnState) (chunks : List (List Nat))
    (rs : List WResp) : ConnState :=
  let node := BufferNode.stream false [] chunks
  let q := s.queue ++ [node]
  if q.length = 1 then
    let res := sendNodeInLoop node rs
    let s1 := pushWire { s with queue := [res.1] } res.2.1
    { s1 with writing := s1.writing || res.2.2.2 }
  else { s with queue := q }

/-- The in-loop branch of `TcpConnectionImpl::sendAsyncStream`
(lines 900–903): push a fresh async-stream node. -/
def newAsyncStreamOp (s : ConnState) : ConnState :=
  { s with queue := s.queue ++ [BufferNode.async true []] }

/-- `TcpConnectionImpl::sendAsyncDataInLoop(node, data, len)`
(lines 917–954), acting on the target node `n`: with data present and
nonempty, write directly only when the node is the head of the nonempty queue
(`isHead`) with zero remaining bytes — a negative write result is logged and
treated as zero bytes — and append whatever the kernel did not take, enabling
write interest; otherwise append everything.  A null `data` marks the node
done and enables write interest.  Returns the node, the bytes written, and
the updated write-interest flag. -/
def sendAsyncDataNode (isHead : Bool) (writing : Bool) (n : BufferNode)
    (data : Option (List Nat)) (r : WResp) : BufferNode × List Nat × Bool :=
  match data with
  | some d =>
      if 0 < d.length then
        if isHead && decide (n.remainingBytes = 0) then
          let k := match r with | .ok k => k | _ => 0
          if k < d.length then (n.append (d.drop k), d.take k, true)
          else (n, d.take k, writing)
        else (n.append d, [], writing)
      else (n, [], writing)
  | none => (n.done, [], true)

/-- The machine-level async delivery: the producer lambda of
`sendAsyncStream` (lines 860–898) gives up unless the connection is still
Connected, then `sendAsyncDataInLoop` runs against the shared node, located
here by its queue position `idx` (out of range: the node was already popped,
so the append lands on an orphaned node and the connection state is
untouched). -/
def asyncDataOp (s : ConnState) (idx : Nat) (data : Option (List Nat))
    (r : WResp) : ConnState :=
  if s.status ≠ ConnStatus.Connected then s
  else
    match s.queue[idx]? with
    | some n =>
        if n.isAsync then
          let res := sendAsyncDataNode (idx == 0) s.writing n data r
          let s1 := pushWire s res.2.1
          { s1 with queue := s1.queue.set idx res.1, writing := res.2.2 }
        else s
    | none => s

/-- One event processed by the connection's event loop: an in-loop `send`, a
writable event, a readable event, the posted lifecycle bodies, the other
send-path entries, or an async-stream delivery.  Each event carries the
kernel's responses to the nonblocking calls it makes. -/
inductive Event
  | send (p : List Nat) (r : WResp)
  | writable (rs : List WResp)
  | readable (r : ReadRes)
  | establish
  | closing
  | shutdownReq
  | forceCloseReq
  | destroy
  | sendFileReq (content : List Nat) (offset : Int) (length : Nat)
      (rs : List WResp)
  | sendStreamReq (chunks : List (List Nat)) (rs : List WResp)
  | newAsyncStream
  | asyncData (idx : Nat) (data : Option (List Nat)) (r : WResp)
deriving Repr, DecidableEq

/-- Dispatch one event to the corresponding handler. -/
def step (s : ConnState) (e : Event) : ConnState :=
  match e with
  | .send p r => sendInLoop s p r
  | .writable rs => writeCallback s rs
  | .readable r => readCallback s r
  | .establish => connectEstablished s
  | .closing => handleClose s
  | .shutdownReq => shutdownInLoop s
  | .forceCloseReq => forceCloseInLoop s
  | .destroy => connectDestroyed s
  | .sendFileReq content offset length rs => sendFileOp s content offset length rs
  | .sendStreamReq chunks rs => sendStreamOp s chunks rs
  | .newAsyncStream => newAsyncStreamOp s
  | .asyncData idx data r => asyncDataOp s idx data r

/-- Run a sequence of loop events. -/
def run (s : ConnState) (tr : List Event) : ConnState :=
  tr.foldl step s

/-- An established, idle connection: Connected, empty queue, no interest in
writing, with the application callbacks installed. -/
def idle0 : ConnState :=
  { status := ConnStatus.Connected, reading := true,
    hasRecvCb := true, hasConnCb := true, hasCloseCb := true }

/-- The payload bytes of the `send` calls of a trace, in call order. -/
def payloads : List Event → List Nat
  | [] => []
  | .send p _ :: rest => p ++ payloads rest
  | _ :: rest => payloads rest

/-- Traces for the ordering law: only loop-thread `send` calls and writable
events, and no `send` hits a hard write error (a reset or unexpected error
makes `sendInLoop` return with the payload dropped, after which the
connection is torn down by the next event). -/
def okEv : Event → Bool
  | .send _ r => r.isOk
  | .writable _ => true
  | _ => false

/-! ## Ordering of egress bytes -/

/-- The bytes a memory node still holds (other variants contribute through
their own state; the ordering law below only ever queues memory nodes). -/
def memBytes : BufferNode → List Nat
  | .mem buf => buf
  | _ => []

/-- All pending memory-node bytes of an egress queue, front to back. -/
def qBytes : List BufferNode → List Nat
  | [] => []
  | n :: q => memBytes n ++ qBytes q

theorem qBytes_append (a b : List BufferNode) :
    qBytes (a ++ b) = qBytes a ++ qBytes b := by
  induction a with
  | nil => rfl
  | cons n t ih => simp [qBytes, ih]

/-- Every queued node is a memory node (the shape `sendInLoop`-only traffic
keeps the queue in). -/
def AllMem (q : List BufferNode) : Prop := ∀ n ∈ q, n.isMem = true

theorem sendNodeInLoop_mem (rs : List WResp) (buf : List Nat) :
    ∃ b, (sendNodeInLoop (.mem buf) rs).1 = .mem b ∧
      (sendNodeInLoop (.mem buf) rs).2.1 ++ b = buf := by
  induction rs generalizing buf with
  | nil =>
      refine ⟨buf, ?_, ?_⟩ <;>
        · by_cases hb : buf.length = 0 <;>
            simp [sendNodeInLoop, BufferNode.remainingBytes,
              BufferNode.getData, hb]
  | cons r rs ih =>
      by_cases hb : buf.length = 0
      · refine ⟨buf, ?_, ?_⟩ <;>
          simp [sendNodeInLoop, BufferNode.remainingBytes, hb]
      · cases r with
        | ok k =>
            by_cases hk : k < buf.length
            · refine ⟨buf.drop k, ?_, ?_⟩ <;>
                simp [sendNodeInLoop, BufferNode.remainingBytes,
                  BufferNode.getData, BufferNode.retrieve, hb, hk]
            · obtain ⟨b, h1, h2⟩ := ih (buf.drop k)
              refine ⟨b, ?_, ?_⟩ <;>
                simp [sendNodeInLoop, BufferNode.remainingBytes,
                  BufferNode.getData, BufferNode.retrieve, hb, hk, h1,
                  List.append_assoc, h2]
        | wouldBlock =>
            refine ⟨buf, ?_, ?_⟩ <;>
              simp [sendNodeInLoop, BufferNode.remainingBytes,
                BufferNode.getData, hb]
        | errReset =>
            refine ⟨buf, ?_, ?_⟩ <;>
              simp [sendNodeInLoop, BufferNode.remainingBytes,
                BufferNode.getData, hb]
        | errOther =>
            refine ⟨buf, ?_, ?_⟩ <;>
              simp [sendNodeInLoop, BufferNode.remainingBytes,
                BufferNode.getData, hb]

theorem isMem_eq (n : BufferNode) (h : n.isMem = true) : ∃ b, n = .mem b := by
  cases n with
  | mem b => exact ⟨b, rfl⟩
  | file a d fb mb c => simp [BufferNode.isMem] at h
  | stream d b p => simp [BufferNode.isMem] at h
  | async a b => simp [BufferNode.isMem] at h

theorem drainLoop_mem (q : List BufferNode) (rs : List WResp) (h : AllMem q) :
    AllMem (drainLoop q rs).2.1 ∧
      (drainLoop q rs).1 ++ qBytes (drainLoop q rs).2.1 = qBytes q := by
  induction q generalizing rs with
  | nil =>
      exact ⟨fun n hn => absurd hn (List.not_mem_nil n), rfl⟩
  | cons n rest ih =>
      have hn : n.isMem = true := h n (by simp)
      have hrest : AllMem rest := fun m hm => h m (by simp [hm])
      obtain ⟨buf, rfl⟩ := isMem_eq n hn
      by_cases hb : buf = []
      · subst hb
        obtain ⟨ha, he⟩ := ih rs hrest
        have hd : drainLoop (BufferNode.mem [] :: rest) rs
            = drainLoop rest rs := by
          simp [drainLoop, BufferNode.remainingBytes, BufferNode.isAsync]
        rw [hd]
        exact ⟨ha, by simpa [qBytes, memBytes] using he⟩
      · obtain ⟨b, h1, h2⟩ := sendNodeInLoop_mem rs buf
        rcases hsn : sendNodeInLoop (.mem buf) rs with ⟨n', out, rs', en⟩
        rw [hsn] at h1 h2
        simp only at h1 h2
        subst h1
        by_cases hb' : 0 < b.length
        · have hd : drainLoop (BufferNode.mem buf :: rest) rs
              = (out, BufferNode.mem b :: rest, .stopped) := by
            simp [drainLoop, BufferNode.remainingBytes, hsn, hb, hb']
          rw [hd]
          refine ⟨?_, ?_⟩
          · intro m hm
            rcases List.mem_cons.mp hm with rfl | hm
            · rfl
            · exact hrest m hm
          · simp only [qBytes, memBytes]
            rw [← List.append_assoc, h2]
        · have hbnil : b = [] := by
            cases b with
            | nil => rfl
            | cons x xs => simp at hb'
          subst hbnil
          have hout : out = buf := by simpa using h2
          obtain ⟨ha, he⟩ := ih rs' hrest
          have hd : drainLoop (BufferNode.mem buf :: rest) rs
              = (out ++ (drainLoop rest rs').1, (drainLoop rest rs').2.1,
                 (drainLoop rest rs').2.2) := by
            simp [drainLoop, BufferNode.remainingBytes, hsn, hb,
              BufferNode.isAsync]
          rw [hd]
          refine ⟨ha, ?_⟩
          simp only [qBytes, memBytes]
          rw [List.append_assoc, he, hout]

theorem sendBuffering_status (s : ConnState) (remain : List Nat) :
    (sendBuffering s remain).status = s.status := by
  simp only [sendBuffering]
  repeat' split
  all_goals rfl

theorem sendBuffering_wire (s : ConnState) (remain : List Nat) :
    (sendBuffering s remain).wire = s.wire := by
  simp only [sendBuffering]
  repeat' split
  all_goals rfl

theorem sendBuffering_closeOnEmpty (s : ConnState) (remain : List Nat) :
    (sendBuffering s remain).closeOnEmpty = s.closeOnEmpty := by
  simp only [sendBuffering]
  repeat' split
  all_goals rfl

theorem sendBuffering_queue (s : ConnState) (remain : List Nat)
    (hr : remain ≠ []) (hs : s.status = ConnStatus.Connected) :
    (sendBuffering s remain).queue =
      (if s.queue = [] ∨ tailIsFileOrStream s.queue then
          s.queue ++ [BufferNode.mem []]
        else s.queue).dropLast ++
      [((if s.queue = [] ∨ tailIsFileOrStream s.queue then
          s.queue ++ [BufferNode.mem []]
        else s.queue).getLast?.getD (BufferNode.mem [])).append remain] := by
  simp only [sendBuffering]
  rw [if_pos ⟨hr, hs⟩]
  repeat' split
  all_goals rfl

theorem sendBuffering_spec (s : ConnState) (remain : List Nat)
    (hs : s.status = ConnStatus.Connected) (h : AllMem s.queue) :
    AllMem (sendBuffering s remain).queue ∧
    qBytes (sendBuffering s remain).queue = qBytes s.queue ++ remain ∧
    (sendBuffering s remain).wire = s.wire ∧
    (sendBuffering s remain).status = s.status ∧
    (sendBuffering s remain).closeOnEmpty = s.closeOnEmpty := by
  by_cases hr : remain = []
  · have he : sendBuffering s remain = s := by
      unfold sendBuffering
      rw [if_neg (by simp [hr])]
    rw [he, hr]
    exact ⟨h, by simp, rfl, rfl, rfl⟩
  · have hq := sendBuffering_queue s remain hr hs
    rcases List.eq_nil_or_concat s.queue with hnil | ⟨front, t, hcat⟩
    · have hsel : (sendBuffering s remain).queue = [BufferNode.mem remain] := by
        rw [hq, hnil]
        simp [tailIsFileOrStream, BufferNode.append]
      refine ⟨?_, ?_, sendBuffering_wire s remain,
        sendBuffering_status s remain, sendBuffering_closeOnEmpty s remain⟩
      · intro n hn
        rw [hsel] at hn
        simp at hn
        subst hn
        rfl
      · rw [hsel, hnil]
        simp [qBytes, memBytes]
    · rw [List.concat_eq_append] at hcat
      have ht : t.isMem = true := h t (by simp [hcat])
      obtain ⟨tb, rfl⟩ := isMem_eq t ht
      have hfront : AllMem front := fun m hm => h m (by simp [hcat, hm])
      have hsel : (sendBuffering s remain).queue
          = front ++ [BufferNode.mem (tb ++ remain)] := by
        rw [hq, hcat]
        simp [tailIsFileOrStream, List.getLast?_concat, List.dropLast_concat,
          BufferNode.isFile, BufferNode.isStream, BufferNode.append]
      refine ⟨?_, ?_, sendBuffering_wire s remain,
        sendBuffering_status s remain, sendBuffering_closeOnEmpty s remain⟩
      · intro n hn
        rw [hsel] at hn
        rcases List.mem_append.mp hn with hn | hn
        · exact hfront n hn
        · simp at hn
          subst hn
          rfl
      · rw [hsel, hcat, qBytes_append, qBytes_append]
        simp [qBytes, memBytes, List.append_assoc]

theorem sendInLoop_spec (s : ConnState) (p : List Nat) (r : WResp)
    (hs : s.status = ConnStatus.Connected) (h : AllMem s.queue)
    (hr : r.isOk = true) :
    (sendInLoop s p r).status = s.status ∧
    (sendInLoop s p r).closeOnEmpty = s.closeOnEmpty ∧
    AllMem (sendInLoop s p r).queue ∧
    (sendInLoop s p r).wire ++ qBytes (sendInLoop s p r).queue
      = s.wire ++ qBytes s.queue ++ p := by
  have hns : ¬s.status ≠ ConnStatus.Connected := by simp [hs]
  by_cases hd : s.writing = false ∧ s.queue = []
  · cases r with
    | ok k =>
        have he : sendInLoop s p (.ok k)
            = sendBuffering (pushWire s (p.take k)) (p.drop k) := by
          unfold sendInLoop
          rw [if_neg hns, if_pos hd]
        obtain ⟨a1, a2, a3, a4, a5⟩ :=
          sendBuffering_spec (pushWire s (p.take k)) (p.drop k) hs h
        rw [he]
        refine ⟨a4, a5, a1, ?_⟩
        rw [a3, a2]
        simp [pushWire, hd.2, qBytes, List.append_assoc]
    | wouldBlock =>
        have he : sendInLoop s p .wouldBlock = sendBuffering s p := by
          unfold sendInLoop
          rw [if_neg hns, if_pos hd]
        obtain ⟨a1, a2, a3, a4, a5⟩ := sendBuffering_spec s p hs h
        rw [he]
        exact ⟨a4, a5, a1, by rw [a3, a2, ← List.append_assoc]⟩
    | errReset => simp [WResp.isOk] at hr
    | errOther => simp [WResp.isOk] at hr
  · have he : sendInLoop s p r = sendBuffering s p := by
      unfold sendInLoop
      rw [if_neg hns, if_neg hd]
    obtain ⟨a1, a2, a3, a4, a5⟩ := sendBuffering_spec s p hs h
    rw [he]
    exact ⟨a4, a5, a1, by rw [a3, a2, ← List.append_assoc]⟩

theorem writeCallback_spec (s : ConnState) (rs : List WResp)
    (hs : s.status = ConnStatus.Connected) (hc : s.closeOnEmpty = false)
    (h : AllMem s.queue) :
    (writeCallback s rs).status = s.status ∧
    (writeCallback s rs).closeOnEmpty = s.closeOnEmpty ∧
    AllMem (writeCallback s rs).queue ∧
    (writeCallback s rs).wire ++ qBytes (writeCallback s rs).queue
      = s.wire ++ qBytes s.queue := by
  by_cases hw : s.writing = false
  · have he : writeCallback s rs = s := by
      unfold writeCallback
      rw [if_pos hw]
    rw [he]
    exact ⟨rfl, rfl, h, rfl⟩
  · obtain ⟨ha, he⟩ := drainLoop_mem s.queue rs h
    rcases hdl : drainLoop s.queue rs with ⟨out, q', o⟩
    rw [hdl] at ha he
    simp only at ha he
    cases o with
    | awaitProducer =>
        have hwcb : writeCallback s rs
            = { pushWire { s with queue := q' } out with writing := false } := by
          simp [writeCallback, hw, hdl]
        rw [hwcb]
        refine ⟨rfl, rfl, ha, ?_⟩
        simp only [pushWire]
        rw [List.append_assoc, he]
    | stopped =>
        have hwcb : writeCallback s rs
            = pushWire { s with queue := q' } out := by
          simp [writeCallback, hw, hdl]
        rw [hwcb]
        refine ⟨rfl, rfl, ha, ?_⟩
        simp only [pushWire]
        rw [List.append_assoc, he]
    | emptied =>
        have hwcb : writeCallback s rs
            = { pushWire { s with queue := q' } out with writing := false } := by
          simp [writeCallback, hw, hdl, hc, pushWire]
        rw [hwcb]
        refine ⟨rfl, rfl, ha, ?_⟩
        simp only [pushWire]
        rw [List.append_assoc, he]

theorem run_spec (tr : List Event) (s : ConnState)
    (hok : ∀ e ∈ tr, okEv e = true)
    (hs : s.status = ConnStatus.Connected) (hc : s.closeOnEmpty = false)
    (h : AllMem s.queue) :
    (run s tr).status = ConnStatus.Connected ∧
    (run s tr).closeOnEmpty = false ∧
    AllMem (run s tr).queue ∧
    (run s tr).wire ++ qBytes (run s tr).queue
      = s.wire ++ (qBytes s.queue ++ payloads tr) := by
  induction tr generalizing s with
  | nil =>
      refine ⟨hs, hc, h, ?_⟩
      simp [run, payloads]
  | cons e rest ih =>
      have he : okEv e = true := hok e (by simp)
      have hrest : ∀ e' ∈ rest, okEv e' = true := fun e' h' =>
        hok e' (by simp [h'])
      cases e with
      | send p r =>
          have hr : r.isOk = true := by simpa [okEv] using he
          obtain ⟨a1, a2, a3, a4⟩ := sendInLoop_spec s p r hs h hr
          obtain ⟨b1, b2, b3, b4⟩ :=
            ih (sendInLoop s p r) hrest (a1.trans hs) (a2.trans hc) a3
          refine ⟨b1, b2, b3, ?_⟩
          have hrun : run s (Event.send p r :: rest)
              = run (sendInLoop s p r) rest := rfl
          rw [hrun, b4, ← List.append_assoc, a4]
          simp [payloads, List.append_assoc]
      | writable rs =>
          obtain ⟨a1, a2, a3, a4⟩ := writeCallback_spec s rs hs hc h
          obtain ⟨b1, b2, b3, b4⟩ :=
            ih (writeCallback s rs) hrest (a1.trans hs) (a2.trans hc) a3
          refine ⟨b1, b2, b3, ?_⟩
          have hrun : run s (Event.writable rs :: rest)
              = run (writeCallback s rs) rest := rfl
          rw [hrun, b4, ← List.append_assoc, a4]
          simp [payloads, List.append_assoc]
      | readable r => simp [okEv] at he
      | establish => simp [okEv] at he
      | closing => simp [okEv] at he
      | shutdownReq => simp [okEv] at he
      | forceCloseReq => simp [okEv] at he
      | destroy => simp [okEv] at he
      | sendFileReq content offset length rs => simp [okEv] at he
      | sendStreamReq chunks rs => simp [okEv] at he
      | newAsyncStream => simp [okEv] at he
      | asyncData idx data r => simp [okEv] at he

/-- Claim C1: egress bytes reach the socket in submission order.  The
embedding realises each structural conjunct (direct writes only on an empty
queue with write interest off, `sendNodeInLoop` only on the queue head,
front-to-back draining that stops at a partial node), and hence for every
sequence of loop-thread `send` calls interleaved with writable events and
free of hard write errors, the wire stream followed by the still-queued bytes
is exactly the concatenation of the payloads in call order — so once the
queue drains, the wire stream is that concatenation. -/
theorem send_order_preserved (tr : List Event)
    (hok : ∀ e ∈ tr, okEv e = true) :
    (run idle0 tr).wire ++ qBytes (run idle0 tr).queue = payloads tr ∧
    ((run idle0 tr).queue = [] → (run idle0 tr).wire = payloads tr) := by
  obtain ⟨-, -, -, h4⟩ := run_spec tr idle0 hok rfl rfl
    (fun n hn => absurd hn (List.not_mem_nil n))
  have h4' : (run idle0 tr).wire ++ qBytes (run idle0 tr).queue
      = payloads tr := by
    simpa [idle0, qBytes] using h4
  refine ⟨h4', fun hq => ?_⟩
  simpa [hq, qBytes] using h4'

/-- A concrete trace for the ordering law: a partially accepted send, a
drain, a would-block send, a final drain. -/
def c1Trace : List Event :=
  [.send [1, 2, 3] (.ok 2), .writable [.ok 1], .send [4, 5] .wouldBlock,
   .writable [.ok 2]]

theorem send_order_preserved_witness :
    (∀ e ∈ c1Trace, okEv e = true) ∧
    ((run idle0 c1Trace).wire ++ qBytes (run idle0 c1Trace).queue
        = payloads c1Trace ∧
      ((run idle0 c1Trace).queue = [] →
        (run idle0 c1Trace).wire = payloads c1Trace)) :=
  ⟨by decide, send_order_preserved c1Trace (by decide)⟩

/-! ## Node coalescing in sendInLoop -/

theorem sendBuffering_writing (s : ConnState) (remain : List Nat)
    (hr : remain ≠ []) (hs : s.status = ConnStatus.Connected) :
    (sendBuffering s remain).writing = true := by
  simp only [sendBuffering]
  rw [if_pos ⟨hr, hs⟩]
  repeat' split
  all_goals rfl

theorem sendBuffering_nil (s : ConnState) : sendBuffering s [] = s := by
  unfold sendBuffering
  rw [if_neg (by simp)]

/-- A connected connection with write interest on whose egress queue ends in
a live async-stream node holding one byte. -/
def c2State : ConnState :=
  { status := ConnStatus.Connected, writing := true,
    queue := [BufferNode.async true [1]] }

/-- Claim C2, counterexample: a `send` issued while the queue's tail is an
async-stream node does not put the bytes into a memory node — `sendInLoop`
appends them into the async node itself (its tail test only checks `isFile`
and `isStream`), so afterwards the queue holds no memory node at all. -/
theorem send_async_tail_counterexample :
    (sendInLoop c2State [2] .wouldBlock).queue
      = [BufferNode.async true [1, 2]] ∧
    ∀ n ∈ (sendInLoop c2State [2] .wouldBlock).queue, n.isMem = false := by
  decide

/-- Claim C2 (amended): when `sendInLoop` has leftover bytes to buffer, it
appends a fresh memory node exactly when the egress queue is empty or its
tail is a file or pull-stream node; in every other case the bytes are
appended to the existing tail node itself — in particular, a send issued
while the tail is a (live or finished) async-stream node appends the bytes
into that async node, not into a memory node. -/
theorem send_coalescing (s : ConnState) (p : List Nat) (r : WResp)
    (hs : s.status = ConnStatus.Connected) (hw : s.writing = true)
    (hp : p ≠ []) :
    (s.queue = [] → (sendInLoop s p r).queue = [BufferNode.mem p]) ∧
    (∀ front t, s.queue = front ++ [t] →
      (t.isFile = true ∨ t.isStream = true) →
      (sendInLoop s p r).queue = s.queue ++ [BufferNode.mem p]) ∧
    (∀ front t, s.queue = front ++ [t] → t.isFile = false →
      t.isStream = false →
      (sendInLoop s p r).queue = front ++ [t.append p]) ∧
    (∀ front a buf, s.queue = front ++ [BufferNode.async a buf] →
      (sendInLoop s p r).queue = front ++ [BufferNode.async a (buf ++ p)]) := by
  have hns : ¬s.status ≠ ConnStatus.Connected := by simp [hs]
  have hd : ¬(s.writing = false ∧ s.queue = []) := by simp [hw]
  have he : sendInLoop s p r = sendBuffering s p := by
    unfold sendInLoop
    rw [if_neg hns, if_neg hd]
  have hq := sendBuffering_queue s p hp hs
  have h3 : ∀ front t, s.queue = front ++ [t] → t.isFile = false →
      t.isStream = false →
      (sendInLoop s p r).queue = front ++ [t.append p] := by
    intro front t hcat hf hst
    have hfs : tailIsFileOrStream s.queue = false := by
      rw [hcat]
      simp [tailIsFileOrStream, List.getLast?_concat, hf, hst]
    have hne : ¬(s.queue = []) := by rw [hcat]; simp
    rw [he, hq, if_neg (by simp [hne, hfs]), hcat, List.dropLast_concat,
      List.getLast?_concat]
    rfl
  refine ⟨?_, ?_, h3, ?_⟩
  · intro hnil
    rw [he, hq, hnil]
    simp [tailIsFileOrStream, BufferNode.append]
  · intro front t hcat hft
    have hfs : tailIsFileOrStream s.queue = true := by
      rw [hcat]
      rcases hft with hft | hft <;>
        simp [tailIsFileOrStream, List.getLast?_concat, hft]
    rw [he, hq, if_pos (Or.inr hfs)]
    rw [show s.queue ++ [BufferNode.mem []] = (s.queue ++ [BufferNode.mem []])
      from rfl, List.dropLast_concat, List.getLast?_concat]
    rfl
  · intro front a buf hcat
    have := h3 front (BufferNode.async a buf) hcat rfl rfl
    simpa [BufferNode.append] using this

theorem send_coalescing_witness :
    (sendInLoop c2State [7] .wouldBlock).queue
      = [BufferNode.async true ([1] ++ [7])] :=
  (send_coalescing c2State [7] .wouldBlock rfl rfl (by decide)).2.2.2
    [] true [1] rfl

/-! ## Fast path and partial-write buffering -/

/-- Claim C4: an in-loop send of `X` on a Connected connection with an empty
egress queue and write interest off makes one direct write; if the kernel
accepts `k < |X|` bytes, exactly the last `|X| - k` bytes end up in a single
fresh memory node and write interest turns on; if it accepts everything, the
queue stays empty and write interest stays off. -/
theorem partial_write_buffering (s : ConnState) (X : List Nat) (k : Nat)
    (hs : s.status = ConnStatus.Connected) (hq : s.queue = [])
    (hw : s.writing = false) (hk : k ≤ X.length) :
    (k < X.length →
      (sendInLoop s X (.ok k)).queue = [BufferNode.mem (X.drop k)] ∧
      (sendInLoop s X (.ok k)).writing = true ∧
      (sendInLoop s X (.ok k)).wire = s.wire ++ X.take k) ∧
    (k = X.length →
      (sendInLoop s X (.ok k)).queue = [] ∧
      (sendInLoop s X (.ok k)).writing = false ∧
      (sendInLoop s X (.ok k)).wire = s.wire ++ X) := by
  have hns : ¬s.status ≠ ConnStatus.Connected := by simp [hs]
  have hd : s.writing = false ∧ s.queue = [] := ⟨hw, hq⟩
  have he : sendInLoop s X (.ok k)
      = sendBuffering (pushWire s (X.take k)) (X.drop k) := by
    unfold sendInLoop
    rw [if_neg hns, if_pos hd]
  constructor
  · intro hklt
    have hdne : X.drop k ≠ [] := by
      intro hcon
      have := congrArg List.length hcon
      simp at this
      omega
    have hq1 := sendBuffering_queue (pushWire s (X.take k)) (X.drop k) hdne hs
    refine ⟨?_, ?_, ?_⟩
    · rw [he, hq1]
      simp [pushWire, hq, tailIsFileOrStream, BufferNode.append]
    · rw [he]
      exact sendBuffering_writing _ _ hdne hs
    · rw [he, sendBuffering_wire]
      rfl
  · intro hkeq
    have hdnil : X.drop k = [] := by
      rw [hkeq, List.drop_length]
    rw [he, hdnil, sendBuffering_nil]
    refine ⟨hq, hw, ?_⟩
    simp [pushWire, hkeq]

theorem partial_write_buffering_witness :
    (sendInLoop idle0 [5, 6, 7] (.ok 2)).queue = [BufferNode.mem [7]] ∧
    (sendInLoop idle0 [5, 6, 7] (.ok 2)).writing = true ∧
    (sendInLoop idle0 [5, 6, 7] (.ok 2)).wire
      = idle0.wire ++ [5, 6, 7].take 2 :=
  (partial_write_buffering idle0 [5, 6, 7] 2 rfl rfl rfl (by decide)).1
    (by decide)

/-! ## File-node bounds -/

/-- Claim C3, counterexample: the file-node bounds check runs in unsigned
64-bit arithmetic, so `length + offset` wraps.  For a 2-byte file, offset 1
and length `2^64 - 1` (the `size_t` image of a `long long` of `-1`), exact
arithmetic has `offset + length > size`, so the claim demands an unavailable,
already-done node — yet the constructed node is available with `2^64 - 1`
remaining bytes. -/
theorem file_bounds_counterexample :
    ((1 : Int) + ((2 ^ 64 - 1 : Nat) : Int) > (([0, 0] : List Nat).length : Int)) ∧
    (newFileBufferNode [0, 0] 1 (2 ^ 64 - 1)).available = true ∧
    (newFileBufferNode [0, 0] 1 (2 ^ 64 - 1)).remainingBytes = 2 ^ 64 - 1 := by
  refine ⟨by decide, by decide, by decide⟩

/-- Claim C3 (amended): for a nonnegative offset and no 64-bit wraparound
(`offset + length < 2^64`), a file node for a file of size `S` is unavailable
and already done — and `sendFile` then neither enqueues it nor writes to the
socket — exactly when `offset ≥ S` (with `length = 0`) or
`offset + length > S`; otherwise it is available with `length` remaining
bytes (`S - offset` when `length = 0`).  Outside those bounds the check
wraps: a `length ≥ 2^64 - offset` (e.g. the `size_t` image of a negative
`long long`) is accepted, and a negative offset fails at the seek instead. -/
theorem file_bounds (content : List Nat) (offset : Int) (length : Nat)
    (h0 : 0 ≤ offset) (hnw : offset + (length : Int) < 2 ^ 64) :
    (((length = 0 ∧ (content.length : Int) ≤ offset) ∨
        (0 < length ∧ (content.length : Int) < offset + length)) →
      (newFileBufferNode content offset length).available = false ∧
      (newFileBufferNode content offset length).remainingBytes = 0 ∧
      ∀ (s : ConnState) (rs : List WResp),
        sendFileOp s content offset length rs = s) ∧
    (¬((length = 0 ∧ (content.length : Int) ≤ offset) ∨
        (0 < length ∧ (content.length : Int) < offset + length)) →
      (newFileBufferNode content offset length).available = true ∧
      (newFileBufferNode content offset length).remainingBytes =
        (if length = 0 then content.length - offset.toNat else length)) := by
  have hl0 : (0 : Int) ≤ (length : Int) + offset :=
    add_nonneg (Int.natCast_nonneg length) h0
  have hlt : (length : Int) + offset < 2 ^ 64 := by
    rw [add_comm]
    exact hnw
  have hmod : ((length : Int) + offset) % (2 ^ 64 : Int)
      = (length : Int) + offset :=
    Int.emod_eq_of_lt hl0 hlt
  have hnneg : ¬offset < 0 := by omega
  constructor
  · rintro (⟨hlen, hoff⟩ | ⟨hlen, hoff⟩)
    · have hnode : newFileBufferNode content offset length
          = BufferNode.file false true 0 [] [] := by
        simp only [newFileBufferNode]
        rw [if_pos hlen, if_pos hoff]
      refine ⟨by rw [hnode]; rfl, by rw [hnode]; rfl, ?_⟩
      intro s rs
      simp [sendFileOp, hnode, BufferNode.available]
    · have hlen' : ¬length = 0 := by omega
      have hcmp : (content.length : Int)
          < ((length : Int) + offset) % (2 ^ 64 : Int) := by
        rw [hmod]
        omega
      have hnode : newFileBufferNode content offset length
          = BufferNode.file false true 0 [] [] := by
        simp only [newFileBufferNode]
        rw [if_neg hlen', if_pos hcmp]
      refine ⟨by rw [hnode]; rfl, by rw [hnode]; rfl, ?_⟩
      intro s rs
      simp [sendFileOp, hnode, BufferNode.available]
  · intro hcon
    by_cases hlen : length = 0
    · have hoff : ¬(content.length : Int) ≤ offset := by
        intro hcon'
        exact hcon (Or.inl ⟨hlen, hcon'⟩)
      have hnode : newFileBufferNode content offset length
          = BufferNode.file true false (content.length - offset.toNat) []
              (content.drop offset.toNat) := by
        simp only [newFileBufferNode]
        rw [if_pos hlen, if_neg hoff, if_neg hnneg]
      exact ⟨by rw [hnode]; rfl, by rw [hnode, if_pos hlen]; rfl⟩
    · have hoff : ¬(content.length : Int) < offset + length := by
        intro hcon'
        exact hcon (Or.inr ⟨Nat.pos_of_ne_zero hlen, hcon'⟩)
      have hcmp : ¬(content.length : Int)
          < ((length : Int) + offset) % (2 ^ 64 : Int) := by
        rw [hmod]
        omega
      have hnode : newFileBufferNode content offset length
          = BufferNode.file true false length [] (content.drop offset.toNat) := by
        simp only [newFileBufferNode]
        rw [if_neg hlen, if_neg hcmp, if_neg hnneg]
      exact ⟨by rw [hnode]; rfl, by rw [hnode, if_neg hlen]; rfl⟩

theorem file_bounds_witness :
    (newFileBufferNode [5, 6, 7] 5 0).available = false ∧
    sendFileOp idle0 [5, 6, 7] 5 0 [] = idle0 :=
  ⟨((file_bounds [5, 6, 7] 5 0 (by decide) (by decide)).1
      (Or.inl ⟨rfl, by decide⟩)).1,
   ((file_bounds [5, 6, 7] 5 0 (by decide) (by decide)).1
      (Or.inl ⟨rfl, by decide⟩)).2.2 idle0 []⟩

/-! ## Shutdown deferral -/

/-- State read and written by the `shutdown()` lambda (lines 281–309), with
the TLS shim of a TLS-enabled build abstracted per the spec: `hasTls` is
`tlsProviderPtr_ != nullptr`, `tlsBufferedBytes` is
`tlsProviderPtr_->getBufferedData().readableBytes()` (the ciphertext
backlog), and `tlsCloseSent` records that `tlsProviderPtr_->close()` sent
the close alert. -/
structure ShutdownState where
  status : ConnStatus
  closeOnEmpty : Bool
  writing : Bool
  halfClosed : Bool
  hasTls : Bool
  tlsBufferedBytes : Nat
  tlsCloseSent : Bool
  queue : List BufferNode
deriving Repr, DecidableEq

/-- The `shutdown()` lambda body (lines 281–309) in full generality: when
Connected, a TLS connection with a nonzero ciphertext backlog or a nonempty
queue defers (`closeOnEmpty := true`), as does a TLS-less connection with a
nonempty queue; otherwise the close alert is sent if a shim is present, the
status becomes Disconnecting and, when write interest is off, the write half
of the socket is closed. -/
def shutdownInLoopFull (s : ShutdownState) : ShutdownState :=
  if s.status = ConnStatus.Connected then
    if s.hasTls = true ∧ (s.tlsBufferedBytes ≠ 0 ∨ s.queue ≠ []) then
      { s with closeOnEmpty := true }
    else if s.hasTls = false ∧ s.queue ≠ [] then
      { s with closeOnEmpty := true }
    else if s.writing = false then
      { s with tlsCloseSent := s.tlsCloseSent || s.hasTls,
               status := ConnStatus.Disconnecting, halfClosed := true }
    else
      { s with tlsCloseSent := s.tlsCloseSent || s.hasTls,
               status := ConnStatus.Disconnecting }
  else s

/-- Claim C5: `shutdown()` on a Connected connection with a nonempty egress
queue (or a nonempty TLS ciphertext backlog) only sets `closeOnEmpty`: same
status, no half-close.  And the write half is closed by the shutdown body
only when the egress queue is empty and, if a shim is present, its backlog
is empty — never while either holds bytes. -/
theorem shutdown_deferral :
    (∀ s : ShutdownState, s.status = ConnStatus.Connected →
      (s.queue ≠ [] ∨ (s.hasTls = true ∧ s.tlsBufferedBytes ≠ 0)) →
      shutdownInLoopFull s = { s with closeOnEmpty := true }) ∧
    (∀ s : ShutdownState, s.halfClosed = false →
      (shutdownInLoopFull s).halfClosed = true →
      s.queue = [] ∧ (s.hasTls = true → s.tlsBufferedBytes = 0)) := by
  constructor
  · intro s hs hbuf
    by_cases htls : s.hasTls = true
    · have hcond : s.hasTls = true ∧ (s.tlsBufferedBytes ≠ 0 ∨ s.queue ≠ []) := by
        rcases hbuf with hq | ⟨_, hb⟩
        · exact ⟨htls, Or.inr hq⟩
        · exact ⟨htls, Or.inl hb⟩
      simp only [shutdownInLoopFull]
      rw [if_pos hs, if_pos hcond]
    · have htls' : s.hasTls = false := by
        cases h : s.hasTls
        · rfl
        · exact absurd h htls
      have hq : s.queue ≠ [] := by
        rcases hbuf with hq | ⟨ht, _⟩
        · exact hq
        · exact absurd ht htls
      simp only [shutdownInLoopFull]
      rw [if_pos hs, if_neg (by simp [htls']), if_pos ⟨htls', hq⟩]
  · intro s h0 h1
    by_cases hs : s.status = ConnStatus.Connected
    · by_cases h2 : s.hasTls = true ∧ (s.tlsBufferedBytes ≠ 0 ∨ s.queue ≠ [])
      · simp only [shutdownInLoopFull] at h1
        rw [if_pos hs, if_pos h2] at h1
        exact absurd h1 (by simp [h0])
      · by_cases h3 : s.hasTls = false ∧ s.queue ≠ []
        · simp only [shutdownInLoopFull] at h1
          rw [if_pos hs, if_neg h2, if_pos h3] at h1
          exact absurd h1 (by simp [h0])
        · have hq : s.queue = [] := by
            by_cases htls : s.hasTls = true
            · by_contra hq
              exact h2 ⟨htls, Or.inr hq⟩
            · have htls' : s.hasTls = false := by
                cases h : s.hasTls
                · rfl
                · exact absurd h htls
              by_contra hq
              exact h3 ⟨htls', hq⟩
          have hb : s.hasTls = true → s.tlsBufferedBytes = 0 := by
            intro htls
            by_contra hb
            exact h2 ⟨htls, Or.inl hb⟩
          exact ⟨hq, hb⟩
    · simp only [shutdownInLoopFull] at h1
      rw [if_neg hs] at h1
      exact absurd h1 (by simp [h0])

/-- A Connected shutdown state whose queue still holds one byte of egress. -/
def c5State : ShutdownState :=
  { status := ConnStatus.Connected, closeOnEmpty := false, writing := false,
    halfClosed := false, hasTls := false, tlsBufferedBytes := 0,
    tlsCloseSent := false, queue := [BufferNode.mem [1]] }

theorem shutdown_deferral_witness :
    shutdownInLoopFull c5State = { c5State with closeOnEmpty := true } ∧
    (c5State.halfClosed = false →
      (shutdownInLoopFull c5State).halfClosed = true →
      c5State.queue = [] ∧
        (c5State.hasTls = true → c5State.tlsBufferedBytes = 0)) :=
  ⟨shutdown_deferral.1 c5State rfl (Or.inl (by decide)),
   shutdown_deferral.2 c5State⟩

/-! ## Idempotence of forceClose -/

theorem handleClose_status (s : ConnState) :
    (handleClose s).status = ConnStatus.Disconnected := by
  simp only [handleClose]
  repeat' split
  all_goals rfl

theorem handleClose_closeCbCount (s : ConnState) (h : s.hasCloseCb = true) :
    (handleClose s).closeCbCount = s.closeCbCount + 1 := by
  simp only [handleClose]
  repeat' split
  all_goals simp_all

theorem forceCloseInLoop_disconnected (t : ConnState)
    (h : t.status = ConnStatus.Disconnected) : forceCloseInLoop t = t := by
  unfold forceCloseInLoop
  rw [if_neg (by simp [h])]

/-- Claim C6: two `forceClose()` bodies sequenced on the loop invoke the
close callback exactly once: the first finds the status Connected (or
Disconnecting), sets Disconnecting and runs `handleClose`, which leaves the
status Disconnected; the second finds the status neither Connected nor
Disconnecting and does nothing. -/
theorem forceClose_idempotent (s : ConnState)
    (hs : s.status = ConnStatus.Connected ∨
      s.status = ConnStatus.Disconnecting)
    (hcb : s.hasCloseCb = true) :
    (forceCloseInLoop (forceCloseInLoop s)).closeCbCount
      = s.closeCbCount + 1 ∧
    (forceCloseInLoop (forceCloseInLoop s)).status
      = ConnStatus.Disconnected := by
  have h1 : forceCloseInLoop s
      = handleClose { s with status := ConnStatus.Disconnecting } := by
    unfold forceCloseInLoop
    rw [if_pos hs]
  have h2 : (forceCloseInLoop s).status = ConnStatus.Disconnected := by
    rw [h1, handleClose_status]
  have h3 : forceCloseInLoop (forceCloseInLoop s) = forceCloseInLoop s :=
    forceCloseInLoop_disconnected _ h2
  constructor
  · rw [h3, h1,
      handleClose_closeCbCount { s with status := ConnStatus.Disconnecting }
        hcb]
  · rw [h3, h2]

theorem forceClose_idempotent_witness :
    (forceCloseInLoop (forceCloseInLoop idle0)).closeCbCount
      = idle0.closeCbCount + 1 ∧
    (forceCloseInLoop (forceCloseInLoop idle0)).status
      = ConnStatus.Disconnected :=
  forceClose_idempotent idle0 (Or.inl rfl) rfl

/-! ## The AsyncStream producer handle -/

/-- An operation the application performs on an `AsyncStreamImpl` handle
before it is destroyed: `send(data, len)` or `close()`. -/
inductive HOp
  | hsend (d : List Nat)
  | hclose
deriving Repr, DecidableEq

/-- Run a sequence of `AsyncStreamImpl` operations (lines 837–845) against a
handle whose callback-present flag is `cb`: `send` invokes the callback with
its data (`some d`), `close` invokes it with `nullptr` (`none`, the done
signal) and then nulls it.  Invoking an absent callback — an operation after
`close` — throws `bad_function_call` in C++ and emits nothing.  Returns the
final flag and the emitted signals in order. -/
def handleRun : Bool → List HOp → Bool × List (Option (List Nat))
  | cb, [] => (cb, [])
  | cb, .hsend d :: rest =>
      let res := handleRun cb rest
      (res.1, (if cb then [some d] else []) ++ res.2)
  | cb, .hclose :: rest =>
      let res := handleRun false rest
      (res.1, (if cb then [(none : Option (List Nat))] else []) ++ res.2)

/-- The `AsyncStreamImpl` destructor (lines 846–850): if the callback was
never nulled by `close`, invoke it once with `nullptr`. -/
def handleDestroy (cb : Bool) : List (Option (List Nat)) :=
  if cb then [none] else []

/-- The complete signal history of a producer handle: constructed with a
live callback, operated on, then destroyed. -/
def handleLifetime (ops : List HOp) : List (Option (List Nat)) :=
  (handleRun true ops).2 ++ handleDestroy (handleRun true ops).1

/-- Number of done signals (`nullptr` invocations) in a signal history. -/
def doneCount : List (Option (List Nat)) → Nat
  | [] => 0
  | none :: rest => doneCount rest + 1
  | some _ :: rest => doneCount rest

theorem doneCount_append (a b : List (Option (List Nat))) :
    doneCount (a ++ b) = doneCount a + doneCount b := by
  induction a with
  | nil => simp [doneCount]
  | cons x t ih =>
      cases x <;> simp [doneCount, ih] <;> omega

theorem handleRun_no_close (ops : List HOp) (h : HOp.hclose ∉ ops)
    (cb : Bool) : (handleRun cb ops).1 = cb := by
  induction ops generalizing cb with
  | nil => rfl
  | cons op rest ih =>
      cases op with
      | hsend d =>
          have h' : HOp.hclose ∉ rest := fun hc => h (by simp [hc])
          simpa [handleRun] using ih h' cb
      | hclose => exact absurd (by simp) h

theorem handleRun_append (cb : Bool) (xs ys : List HOp) :
    handleRun cb (xs ++ ys)
      = ((handleRun (handleRun cb xs).1 ys).1,
         (handleRun cb xs).2 ++ (handleRun (handleRun cb xs).1 ys).2) := by
  induction xs generalizing cb with
  | nil => simp [handleRun]
  | cons op rest ih =>
      cases op <;> simp [handleRun, ih, List.append_assoc]

theorem doneCount_bound (ops : List HOp) (cb : Bool) :
    doneCount (handleRun cb ops).2 + (if (handleRun cb ops).1 then 1 else 0)
      ≤ (if cb then 1 else 0) := by
  induction ops generalizing cb with
  | nil => simp [handleRun, doneCount]
  | cons op rest ih =>
      cases op with
      | hsend d =>
          have h := ih cb
          cases cb <;>
            simp_all [handleRun, doneCount, doneCount_append]
      | hclose =>
          have h := ih false
          cases cb <;>
            simp_all [handleRun, doneCount, doneCount_append] <;> omega

/-- Claim C7: destroying an `AsyncStreamImpl` handle without having called
`close()` has exactly the effect of one `close()` call (the same signal
history, ending in a single done signal); and over every usage sequence the
handle issues the done signal at most once, since `close()` nulls the
callback and the destructor only fires a still-present callback. -/
theorem asyncHandle_done_once :
    (∀ ops : List HOp, HOp.hclose ∉ ops →
      handleLifetime ops = handleLifetime (ops ++ [HOp.hclose])) ∧
    (∀ ops : List HOp, doneCount (handleLifetime ops) ≤ 1) := by
  constructor
  · intro ops h
    have hcb : (handleRun true ops).1 = true := handleRun_no_close ops h true
    unfold handleLifetime
    rw [handleRun_append, hcb]
    simp [handleRun, handleDestroy]
  · intro ops
    have h := doneCount_bound ops true
    unfold handleLifetime
    rw [doneCount_append]
    unfold handleDestroy
    cases hcb : (handleRun true ops).1 <;>
      rw [hcb] at h <;> simp_all [doneCount] <;> omega

theorem asyncHandle_done_once_witness :
    handleLifetime [HOp.hsend [1]]
      = handleLifetime [HOp.hsend [1], HOp.hclose] ∧
    doneCount (handleLifetime [HOp.hsend [1]]) ≤ 1 :=
  ⟨asyncHandle_done_once.1 [HOp.hsend [1]] (by decide),
   asyncHandle_done_once.2 [HOp.hsend [1]]⟩

/-! ## Read-path case analysis -/

/-- Claim C8: the read handler's case analysis, on the POSIX branches of the
source: a 0-byte read triggers close handling; would-block (`EAGAIN`)
returns without closing; `EPIPE`/`ECONNRESET` return silently without
closing; an aborted read (`ECONNABORTED`, reaching the final branch) closes;
any other negative result logs and closes; and only a positive result grows
the received-bytes counter, appends to the ingress buffer and (no TLS shim
existing in this build) invokes the message callback when installed, leaving
the status untouched. -/
theorem readCallback_cases (s : ConnState) (bytes : List Nat)
    (hb : bytes ≠ []) :
    readCallback s (.ok []) = handleClose s ∧
    readCallback s .errWouldBlock = s ∧
    readCallback s .errPipeOrReset = s ∧
    readCallback s .errAborted = handleClose s ∧
    readCallback s .errOther = handleClose s ∧
    (readCallback s (.ok bytes)).bytesReceived
      = s.bytesReceived + bytes.length ∧
    (readCallback s (.ok bytes)).readBuffer = s.readBuffer ++ bytes ∧
    (readCallback s (.ok bytes)).status = s.status ∧
    (s.hasRecvCb = true →
      (readCallback s (.ok bytes)).recvCbCount = s.recvCbCount + 1) := by
  have hlen : ¬bytes.length = 0 := by simpa using hb
  refine ⟨rfl, rfl, rfl, rfl, rfl, ?_, ?_, ?_, ?_⟩
  · simp only [readCallback]
    rw [if_neg hlen]
    repeat' split
    all_goals rfl
  · simp only [readCallback]
    rw [if_neg hlen]
    repeat' split
    all_goals rfl
  · simp only [readCallback]
    rw [if_neg hlen]
    repeat' split
    all_goals rfl
  · intro h
    simp only [readCallback]
    rw [if_neg hlen]
    repeat' split
    all_goals simp_all

theorem readCallback_cases_witness :
    (readCallback idle0 (.ok [1])).bytesReceived
      = idle0.bytesReceived + [1].length ∧
    (readCallback idle0 (.ok [1])).recvCbCount = idle0.recvCbCount + 1 :=
  ⟨(readCallback_cases idle0 [1] (by decide)).2.2.2.2.2.1,
   (readCallback_cases idle0 [1] (by decide)).2.2.2.2.2.2.2.2 rfl⟩

/-! ## Status monotonicity -/

theorem rank_le_three (st : ConnStatus) : st.rank ≤ 3 := by
  cases st <;> simp [ConnStatus.rank]

theorem rank_injective (a b : ConnStatus) (h : a.rank = b.rank) : a = b := by
  cases a <;> cases b <;> simp_all [ConnStatus.rank]

theorem sendInLoop_status (s : ConnState) (p : List Nat) (r : WResp) :
    (sendInLoop s p r).status = s.status := by
  simp only [sendInLoop]
  repeat' split
  all_goals first
    | rfl
    | simp [sendBuffering_status, pushWire]

theorem shutdownInLoop_rank (s : ConnState) :
    s.status.rank ≤ (shutdownInLoop s).status.rank := by
  simp only [shutdownInLoop]
  repeat' split
  all_goals simp_all [ConnStatus.rank]

theorem writeCallback_rank (s : ConnState) (rs : List WResp) :
    s.status.rank ≤ (writeCallback s rs).status.rank := by
  by_cases hw : s.writing = false
  · have he : writeCallback s rs = s := by
      unfold writeCallback
      rw [if_pos hw]
    rw [he]
  · rcases hdl : drainLoop s.queue rs with ⟨out, q', o⟩
    cases o with
    | awaitProducer =>
        have he : writeCallback s rs
            = { pushWire { s with queue := q' } out with writing := false } := by
          simp [writeCallback, hw, hdl]
        rw [he]
        exact Nat.le_refl _
    | stopped =>
        have he : writeCallback s rs = pushWire { s with queue := q' } out := by
          simp [writeCallback, hw, hdl]
        rw [he]
        exact Nat.le_refl _
    | emptied =>
        by_cases hce : s.closeOnEmpty = true
        · have he : writeCallback s rs = shutdownInLoop
              { pushWire { s with queue := q' } out with writing := false } := by
            simp [writeCallback, hw, hdl, pushWire, hce]
          rw [he]
          exact shutdownInLoop_rank
            { pushWire { s with queue := q' } out with writing := false }
        · have he : writeCallback s rs
              = { pushWire { s with queue := q' } out with writing := false } := by
            simp [writeCallback, hw, hdl, pushWire, hce]
          rw [he]
          exact Nat.le_refl _

theorem handleClose_rank (s : ConnState) :
    s.status.rank ≤ (handleClose s).status.rank := by
  rw [handleClose_status]
  exact rank_le_three s.status

theorem forceCloseInLoop_rank (s : ConnState) :
    s.status.rank ≤ (forceCloseInLoop s).status.rank := by
  unfold forceCloseInLoop
  split
  · rw [handleClose_status]
    exact rank_le_three s.status
  · exact Nat.le_refl _

theorem connectEstablished_rank (s : ConnState) :
    s.status.rank ≤ (connectEstablished s).status.rank := by
  simp only [connectEstablished]
  repeat' split
  all_goals simp_all [ConnStatus.rank]

theorem connectDestroyed_rank (s : ConnState) :
    s.status.rank ≤ (connectDestroyed s).status.rank := by
  simp only [connectDestroyed]
  repeat' split
  all_goals simp_all [ConnStatus.rank]

theorem readCallback_rank (s : ConnState) (r : ReadRes) :
    s.status.rank ≤ (readCallback s r).status.rank := by
  cases r with
  | ok bytes =>
      simp only [readCallback]
      repeat' split
      all_goals first
        | exact Nat.le_refl _
        | exact handleClose_rank _
  | errPipeOrReset => exact Nat.le_refl _
  | errWouldBlock => exact Nat.le_refl _
  | errAborted => exact handleClose_rank _
  | errOther => exact handleClose_rank _

theorem sendFileOp_status (s : ConnState) (content : List Nat) (offset : Int)
    (length : Nat) (rs : List WResp) :
    (sendFileOp s content offset length rs).status = s.status := by
  simp only [sendFileOp]
  repeat' split
  all_goals rfl

theorem sendStreamOp_status (s : ConnState) (chunks : List (List Nat))
    (rs : List WResp) :
    (sendStreamOp s chunks rs).status = s.status := by
  simp only [sendStreamOp]
  repeat' split
  all_goals rfl

theorem asyncDataOp_status (s : ConnState) (idx : Nat)
    (data : Option (List Nat)) (r : WResp) :
    (asyncDataOp s idx data r).status = s.status := by
  simp only [asyncDataOp]
  repeat' split
  all_goals rfl

/-- Claim C9: the connection status only moves forward along
`Connecting < Connected < Disconnecting < Disconnected`: every event the
loop can process either leaves the status unchanged or replaces it with a
strictly later one; no operation sequence moves it backward. -/
theorem status_monotone (s : ConnState) (e : Event) :
    (step s e).status = s.status ∨
      s.status.rank < (step s e).status.rank := by
  have hle : s.status.rank ≤ (step s e).status.rank := by
    cases e with
    | send p r => simp [step, sendInLoop_status]
    | writable rs => exact writeCallback_rank s rs
    | readable r => exact readCallback_rank s r
    | establish => exact connectEstablished_rank s
    | closing => exact handleClose_rank s
    | shutdownReq => exact shutdownInLoop_rank s
    | forceCloseReq => exact forceCloseInLoop_rank s
    | destroy => exact connectDestroyed_rank s
    | sendFileReq content offset length rs =>
        simp [step, sendFileOp_status]
    | sendStreamReq chunks rs => simp [step, sendStreamOp_status]
    | newAsyncStream => exact Nat.le_refl _
    | asyncData idx data r => simp [step, asyncDataOp_status]
  rcases Nat.lt_or_ge s.status.rank (step s e).status.rank with hlt | hge
  · exact Or.inr hlt
  · exact Or.inl (rank_injective _ _ (Nat.le_antisymm hge hle))

/-! ## Async delivery never discards data -/

/-- Whether a write response is a negative `writeInLoop` return. -/
def WResp.isNeg : WResp → Bool
  | .ok _ => false
  | _ => true

/-- Claim C10: `sendAsyncDataInLoop` never discards producer data.  For a
delivery of nonempty `d` to the async node: when the node is the drained
queue head and the kernel accepts `k` bytes, the first `k` bytes go to the
wire and the rest are appended (write interest turning on iff the write was
partial); when the write fails (any negative result) it is treated as zero
bytes — everything is appended and write interest turns on; when the node is
not the drained head, everything is appended. -/
theorem asyncData_no_discard (avail writing : Bool) (buf d : List Nat)
    (k : Nat) (hd : d ≠ []) :
    (sendAsyncDataNode true writing (.async avail []) (some d) (.ok k)
      = (.async avail (d.drop k), d.take k,
         if k < d.length then true else writing)) ∧
    (∀ r : WResp, r.isNeg = true →
      sendAsyncDataNode true writing (.async avail []) (some d) r
        = (.async avail d, [], true)) ∧
    (∀ (isHead : Bool) (r : WResp), isHead = false ∨ buf ≠ [] →
      sendAsyncDataNode isHead writing (.async avail buf) (some d) r
        = (.async avail (buf ++ d), [], writing)) := by
  have hdl : 0 < d.length := List.length_pos.mpr hd
  refine ⟨?_, ?_, ?_⟩
  · by_cases hk : k < d.length
    · simp [sendAsyncDataNode, BufferNode.remainingBytes, BufferNode.append,
        hdl, hk]
    · have hge : d.length ≤ k := Nat.le_of_not_lt hk
      have hdrop : d.drop k = [] := List.drop_eq_nil_of_le hge
      have htake : d.take k = d := List.take_of_length_le hge
      simp [sendAsyncDataNode, BufferNode.remainingBytes, hdl, hk, hdrop,
        htake]
  · intro r hr
    cases r with
    | ok k => simp [WResp.isNeg] at hr
    | wouldBlock =>
        simp [sendAsyncDataNode, BufferNode.remainingBytes,
          BufferNode.append, hdl]
    | errReset =>
        simp [sendAsyncDataNode, BufferNode.remainingBytes,
          BufferNode.append, hdl]
    | errOther =>
        simp [sendAsyncDataNode, BufferNode.remainingBytes,
          BufferNode.append, hdl]
  · intro isHead r hcase
    have hcond : (isHead && decide
        ((BufferNode.async avail buf).remainingBytes = 0)) = false := by
      rcases hcase with hh | hb
      · simp [hh]
      · simp [BufferNode.remainingBytes, List.length_eq_zero, hb]
    simp [sendAsyncDataNode, hdl, hcond, BufferNode.append]

theorem asyncData_no_discard_witness :
    sendAsyncDataNode true false (.async true []) (some [1, 2]) (.ok 1)
      = (.async true ([1, 2].drop 1), [1, 2].take 1,
         if 1 < [1, 2].length then true else false) :=
  (asyncData_no_discard true false [] [1, 2] 1 (by decide)).1

end TrantorSpec

